import Mathlib

set_option maxRecDepth 10000

/-!
Verification of the Red Faction 2 texture codec scripts
(`src/scripts/python/utils.py`, `process_peg.py`, `tga.py`).

The Python byte strings are modelled as `List Nat` (each element one byte),
Python exceptions as an explicit `Err` sum carried by `Except`, and the
sequential file reads of the decoder as explicit take/drop on a byte list.
All definitions are translated from the source; the only exceptions are the
spec-side permutation `paletteSwizzleSpec` (used to state the refinement
claim about the palette swizzle) and the encoder `encodeFrames`/`encodeImage`,
whose working source is absent (the pack path of `process_peg.py` is
incomplete) and which is therefore modelled from the specification text.
-/

/-- Error kinds raised by the embedded Python code: `indexError` for a
bytearray index out of range, `structError` for `struct.pack`/`unpack`
failures, `rangeStepZero` for `range(_, _, 0)`, `keyError` for a missing
dict key, `valueError` for other `ValueError` conditions, and
`unsupportedFormat t` for the `Unsupported texture type` error of
`PEGImageArchive._read_image_data` carrying the entry type value. -/
inductive Err
  | indexError
  | structError
  | rangeStepZero
  | keyError
  | valueError
  | unsupportedFormat (t : Nat)
deriving DecidableEq

instance {e a : Type} [DecidableEq e] [DecidableEq a] : DecidableEq (Except e a) := fun x y =>
  match x, y with
  | .ok u, .ok v =>
    if h : u = v then .isTrue (by rw [h]) else .isFalse (fun hc => by cases hc; exact h rfl)
  | .error u, .error v =>
    if h : u = v then .isTrue (by rw [h]) else .isFalse (fun hc => by cases hc; exact h rfl)
  | .ok _, .error _ => .isFalse (fun hc => by cases hc)
  | .error _, .ok _ => .isFalse (fun hc => by cases hc)

/-- Python slice read `l[a:b]` (for `0 ≤ a ≤ b`): indices clamp to the list
length and never fail. -/
def pySlice (l : List Nat) (a b : Nat) : List Nat := (l.take b).drop a

/-- Python slice assignment `l[a:b] = repl` (for `a ≤ b`): both bounds clamp
to the list length, the clamped segment is replaced by `repl`. -/
def pySliceAssign (l : List Nat) (a b : Nat) (repl : List Nat) : List Nat :=
  l.take (min a l.length) ++ repl ++ l.drop (max (min a l.length) (min b l.length))

/-- Number of iterations of Python `range(0, stop, step)` for `step > 0`. -/
def pyRangeLen (stop step : Nat) : Nat := (stop + step - 1) / step

/-- Body of one iteration of the outer loop of `unswizzle_8bit_palette`
(src/scripts/python/utils.py lines 9-25): four slice copies from the source
buffer `p` into `result`, each of `sub_sizes[3]` bytes, with source
positions `[bs, bs+s2, bs+s3, bs+s1]` and destinations `[bs, bs+s3, bs+s2, bs+s1]`. -/
def unswizzleStep (p : List Nat) (s1 s2 s3 : Nat) (result : List Nat) (bs : Nat) : List Nat :=
  let r1 := pySliceAssign result bs (bs + s3) (pySlice p bs (bs + s3))
  let r2 := pySliceAssign r1 (bs + s3) (bs + s3 + s3) (pySlice p (bs + s2) (bs + s2 + s3))
  let r3 := pySliceAssign r2 (bs + s2) (bs + s2 + s3) (pySlice p (bs + s3) (bs + s3 + s3))
  pySliceAssign r3 (bs + s1) (bs + s1 + s3) (pySlice p (bs + s1) (bs + s1 + s3))

/-- Embeds `unswizzle_8bit_palette` (src/scripts/python/utils.py lines 4-27).
`block_size = len(p) // 8`, `sub_sizes[i] = block_size - i * (block_size // 4)`,
the outer loop is `range(0, len(p), sub_sizes[0])`; Python raises
`ValueError` when the range step `sub_sizes[0]` is zero (inputs shorter
than 8 bytes), and the function performs no other validation. -/
def unswizzle_8bit_palette (p : List Nat) : Except Err (List Nat) :=
  let len := p.length
  let block_size := len / 8
  let s0 := block_size - 0 * (block_size / 4)
  let s1 := block_size - 1 * (block_size / 4)
  let s2 := block_size - 2 * (block_size / 4)
  let s3 := block_size - 3 * (block_size / 4)
  if s0 = 0 then .error .rangeStepZero
  else
    .ok ((List.range (pyRangeLen len s0)).foldl
      (fun result k => unswizzleStep p s1 s2 s3 result (k * s0))
      (List.replicate len 0))

/-- Per-pixel 16-bit field swap of `change_pixel_order` for depth 16
(src/scripts/python/utils.py lines 40-45): unpack bit 15, bits 10-14,
bits 5-9, bits 0-4 and repack with the 5-bit fields at bits 10-14 and
bits 0-4 exchanged. -/
def swapPixel16 (pixel : Nat) : Nat :=
  let a := (pixel &&& 0x8000) >>> 15
  let r := (pixel &&& 0x7C00) >>> 10
  let g := (pixel &&& 0x03E0) >>> 5
  let b := pixel &&& 0x001F
  (a <<< 15) ||| (b <<< 10) ||| (g <<< 5) ||| r

/-- Depth-32 branch of `change_pixel_order` (src/scripts/python/utils.py
lines 31-35): for each 4-byte group swap bytes 0 and 2. The Python loop
indexes `data[i + 2]`, so a trailing group of 1 or 2 bytes raises
`IndexError`, while a trailing group of 3 bytes is swapped in place. -/
def swap32 : List Nat → Except Err (List Nat)
  | [] => .ok []
  | [_] => .error .indexError
  | [_, _] => .error .indexError
  | [a, b, c] => .ok [c, b, a]
  | a :: b :: c :: d :: rest => (swap32 rest).map (fun r => c :: b :: a :: d :: r)

/-- Depth-16 branch of `change_pixel_order` (src/scripts/python/utils.py
lines 37-47): each little-endian 16-bit value is unpacked, field-swapped by
`swapPixel16` and repacked little-endian. `struct.unpack` on a trailing
single byte raises `struct.error`, as would a pack of a value outside
16 bits (which never occurs). -/
def swap16 : List Nat → Except Err (List Nat)
  | [] => .ok []
  | [_] => .error .structError
  | lo :: hi :: rest =>
    let np := swapPixel16 (lo + 256 * hi)
    if np < 65536 then (swap16 rest).map (fun r => np % 256 :: np / 256 :: r)
    else .error .structError

/-- Embeds `change_pixel_order` (src/scripts/python/utils.py lines 30-49):
dispatch on the depth, any depth other than 32 and 16 returns the data
unchanged (`return data`). -/
def change_pixel_order (data : List Nat) (depth : Nat) : Except Err (List Nat) :=
  if depth = 32 then swap32 data
  else if depth = 16 then swap16 data
  else .ok data

/-- Applies `change_pixel_order` twice at the same depth (the involution
the spec asserts). -/
def change_pixel_order_twice (data : List Nat) (depth : Nat) : Except Err (List Nat) :=
  match change_pixel_order data depth with
  | .error e => .error e
  | .ok r => change_pixel_order r depth

/-- Spec-side quarter swap of one macro-block, following the spec words:
partition the macro-block into four quarters of size `q` and swap
quarters 1 and 2, leaving quarters 0 and 3 in place. -/
def swapQuarters (q : Nat) (b : List Nat) : List Nat :=
  b.take q ++ pySlice b (2 * q) (3 * q) ++ pySlice b q (2 * q) ++ b.drop (3 * q)

/-- Spec-side description of the palette block swizzle for a buffer of
length `32 * q`: partition into 8 macro-blocks of `4 * q` bytes, each into
4 quarters of `q = L / 32` bytes, and swap quarters 1 and 2 within every
macro-block. Stated from the specification text to compare with the
source function `unswizzle_8bit_palette`. -/
def paletteSwizzleSpec (q : Nat) (p : List Nat) : List Nat :=
  ((List.range 8).map (fun k => swapQuarters q (pySlice p (4 * q * k) (4 * q * k + 4 * q)))).flatten

/-- Blocks `j ≤ k < j + n` of the spec-side swizzle, used to state the fold
invariant of `unswizzle_8bit_palette`. -/
def swizzleBlocks (q : Nat) (p : List Nat) (j n : Nat) : List Nat :=
  ((List.range' j n).map
    (fun k => swapQuarters q (pySlice p (4 * q * k) (4 * q * k + 4 * q)))).flatten

/-- One frame of a decoded image: raw pixel bytes (or palette index bytes)
and, for palettized entries, the decoded palette; embeds the dataclass
`RF2ImageFileFrame` (src/scripts/python/process_peg.py lines 49-52). -/
structure RF2ImageFileFrame where
  data : List Nat
  palette : Option (List Nat)
deriving DecidableEq

/-- Embeds the dataclass `RF2ImageFile` (src/scripts/python/process_peg.py
lines 55-62). -/
structure RF2ImageFile where
  name : String
  width : Nat
  height : Nat
  depth : Nat
  palette_depth : Nat
  frames : List RF2ImageFileFrame
deriving DecidableEq

/-- Frame loop of `PEGImageArchive._read_image_data`
(src/scripts/python/process_peg.py lines 128-136): `frame_num` iterations;
for depth 8 read `256 * palette_depth // 8` palette bytes, channel-swap and
unswizzle them, then read `width * height` index bytes; otherwise read
`width * height * (depth // 8)` bytes and channel-swap them. The local
variable `palette_data` starts as `None` and persists across iterations. -/
def readFrames (depth palette_depth width height : Nat) :
    Nat → List Nat → Option (List Nat) → Except Err (List RF2ImageFileFrame)
  | 0, _, _ => .ok []
  | n + 1, stream, palette_data =>
    if depth = 8 then
      match change_pixel_order (stream.take (256 * palette_depth / 8)) palette_depth with
      | .error e => .error e
      | .ok palette_bytes =>
        match unswizzle_8bit_palette palette_bytes with
        | .error e => .error e
        | .ok pal =>
          let rest := stream.drop (256 * palette_depth / 8)
          let image_data := rest.take (width * height)
          match readFrames depth palette_depth width height n (rest.drop (width * height))
              (some pal) with
          | .error e => .error e
          | .ok fs => .ok (⟨image_data, some pal⟩ :: fs)
    else
      match change_pixel_order (stream.take (width * height * (depth / 8))) depth with
      | .error e => .error e
      | .ok image_data =>
        match readFrames depth palette_depth width height n
            (stream.drop (width * height * (depth / 8))) palette_data with
        | .error e => .error e
        | .ok fs => .ok (⟨image_data, palette_data⟩ :: fs)

/-- Embeds the dispatch of `PEGImageArchive._read_image_data`
(src/scripts/python/process_peg.py lines 104-138): type 7 decodes as depth
32, type 4 as depth 8 with palette depth 16 when the subtype is 1 and 32
otherwise, type 3 as depth 16; any other type raises the unsupported
texture type error carrying the entry type. The byte list `stream` stands
for the file content from the entry offset on; Python `f.read(n)` returns
at most `n` bytes without failing, modelled by `take`/`drop`. -/
def readImageData (width height ty subtype frame_num : Nat) (name : String)
    (stream : List Nat) : Except Err RF2ImageFile :=
  if ty = 7 then
    (readFrames 32 32 width height frame_num stream none).map
      (fun fs => ⟨name, width, height, 32, 32, fs⟩)
  else if ty = 4 then
    let pd := if subtype = 1 then 16 else 32
    (readFrames 8 pd width height frame_num stream none).map
      (fun fs => ⟨name, width, height, 8, pd, fs⟩)
  else if ty = 3 then
    (readFrames 16 32 width height frame_num stream none).map
      (fun fs => ⟨name, width, height, 16, 32, fs⟩)
  else .error (.unsupportedFormat ty)

/-- Embeds `PEGProcessor._get_image_type` (src/scripts/python/process_peg.py
lines 383-385): `{32: 7, 16: 3, 8: 4}.get(depth, 0)`. -/
def get_image_type (depth : Nat) : Nat :=
  if depth = 32 then 7 else if depth = 16 then 3 else if depth = 8 then 4 else 0

/-- Embeds the subtype computation of `PEGProcessor._pack_directory`
(src/scripts/python/process_peg.py lines 362-364): 0 unless depth is 8, in
which case 2 for a 32-bit palette and 1 otherwise. -/
def get_subtype (depth palette_depth : Nat) : Nat :=
  if depth = 8 then (if palette_depth = 32 then 2 else 1) else 0

/-- Modelled from the spec: the per-frame pack-direction encoder of
`PixelCodec.encode` is not present in working form in the source (the pack
path in `process_peg.py` lines 310-382 is incomplete, with undefined names
and syntax errors), so this follows the spec words: for depth 32/16 apply
the matching channel swap and emit the raw bytes; for depth 8 apply the
block swizzle then the matching channel swap to the palette and emit the
palette bytes followed by the raw index bytes, frame after frame. -/
def encodeFrames (depth palette_depth : Nat) :
    List RF2ImageFileFrame → Except Err (List Nat)
  | [] => .ok []
  | f :: fs =>
    if depth = 8 then
      match f.palette with
      | none => .error .valueError
      | some pal =>
        match unswizzle_8bit_palette pal with
        | .error e => .error e
        | .ok sw =>
          match change_pixel_order sw palette_depth with
          | .error e => .error e
          | .ok palOut =>
            match encodeFrames depth palette_depth fs with
            | .error e => .error e
            | .ok rest => .ok (palOut ++ f.data ++ rest)
    else
      match change_pixel_order f.data depth with
      | .error e => .error e
      | .ok dataOut =>
        match encodeFrames depth palette_depth fs with
        | .error e => .error e
        | .ok rest => .ok (dataOut ++ rest)

/-- Modelled from the spec: `PixelCodec.encode` of a whole decoded image,
the concatenation of its encoded frames (see `encodeFrames`). -/
def encodeImage (img : RF2ImageFile) : Except Err (List Nat) :=
  encodeFrames img.depth img.palette_depth img.frames

/-- Encode an image to its raw payload and decode that payload with the
entry metadata the packer would store for it (`get_image_type`,
`get_subtype`, the frame count and the dimensions of the image). -/
def encode_then_decode (img : RF2ImageFile) : Except Err RF2ImageFile :=
  match encodeImage img with
  | .error e => .error e
  | .ok payload =>
      readImageData img.width img.height (get_image_type img.depth)
        (get_subtype img.depth img.palette_depth) img.frames.length img.name payload

/-- Little-endian 4-byte encoding of `struct.pack` format `<I`. -/
def u32le (n : Nat) : List Nat :=
  [n % 256, n / 256 % 256, n / 65536 % 256, n / 16777216 % 256]

/-- The 4-byte magic tag `GEKV` of `PEGImageArchive.MAGIC`
(src/scripts/python/process_peg.py line 66). -/
def pegMagic : List Nat := [0x47, 0x45, 0x4B, 0x56]

/-- Embeds `PEGImageArchive._write_header` (src/scripts/python/process_peg.py
lines 149-156): magic, version, entry table size `N * 64`, total payload
size, entry count and three zero fields, all little-endian 32-bit. -/
def writeHeaderBytes (version numEntries : Nat) (payloadSizes : List Nat) : List Nat :=
  pegMagic ++ u32le version ++ u32le (numEntries * 64)
    ++ u32le (payloadSizes.foldl (fun acc s => acc + s) 0)
    ++ u32le numEntries ++ u32le 0 ++ u32le 0 ++ u32le 0

/-- Offset assignment of `PEGImageArchive._write_entries`
(src/scripts/python/process_peg.py lines 158-174): `current_offset` starts
at `28 + numEntries * 64`, each entry stores the current offset and the
offset advances by the payload size of that entry. -/
def writeEntriesOffsets (numEntries : Nat) (payloadSizes : List Nat) : List Nat :=
  (payloadSizes.foldl (fun acc size => (acc.1 ++ [acc.2], acc.2 + size))
    (([] : List Nat), 28 + numEntries * 64)).1

/-- File position `f.seek(28 + i * 64)` at which `_write_entries` writes the
record of entry `i` (src/scripts/python/process_peg.py line 165). -/
def entrySeekPos (i : Nat) : Nat := 28 + i * 64

/-- File position at which `PEGImageArchive._write_image_data` starts
writing the concatenated payloads (src/scripts/python/process_peg.py line
177): the stored offset of the last entry, or 28 with no entries. -/
def imageDataStartPos (offsets : List Nat) : Nat := offsets.getLastD 28

/-- Byte pair of `struct.pack` format `<H`, failing for values of 16 bits
or more. -/
def packH (n : Nat) : Except Err (List Nat) :=
  if n < 65536 then .ok [n % 256, n / 256] else .error .structError

/-- Single byte of `struct.pack` format `B`, failing for values of 8 bits
or more. -/
def packB (n : Nat) : Except Err (List Nat) :=
  if n < 256 then .ok [n] else .error .structError

/-- Embeds `TGAFile._determine_image_type` (src/scripts/python/tga.py lines
66-71): `{8: 1, 16: 2, 32: 2}[depth]`, raising `KeyError` otherwise. -/
def determineImageType (depth : Nat) : Except Err Nat :=
  if depth = 8 then .ok 1 else if depth = 16 then .ok 2
  else if depth = 32 then .ok 2 else .error .keyError

/-- Origin flag extraction of `TGAFile.from_bytes`
(src/scripts/python/tga.py line 99): `(descriptor & 0x20) != 0`, so a set
bit 5 is read back as bottom-up row order. -/
def originBottomLeftOfDescriptor (d : Nat) : Bool := d &&& 0x20 != 0

/-- Embeds `TGAFile.write_to_stream` (src/scripts/python/tga.py lines
137-194) together with the `image_type` computation of the constructor:
18-byte header, optional palette padded to 1024 bytes, then the pixel
data, with the rows reversed when `origin_bottom_left` is false and the
height exceeds 1 (`row_size = width * (depth // 8)`; a zero row size makes
the Python list comprehension `range(0, len, 0)` raise `ValueError`). -/
def tga_write_to_stream (width height depth : Nat) (image_data palette : List Nat)
    (palette_size palette_depth : Nat) (origin_bottom_left : Bool) :
    Except Err (List Nat) := do
  let image_type ← determineImageType depth
  let cmap_type : Nat := if depth = 8 then 1 else 0
  let b1 ← packB cmap_type
  let b2 ← packB image_type
  let cmapSpec ← (if cmap_type = 1 then do
      let x1 ← packH 0
      let x2 ← packH palette_size
      let x3 ← packB palette_depth
      pure (x1 ++ x2 ++ x3)
    else pure [0, 0, 0, 0, 0] : Except Err (List Nat))
  let xo ← packH 0
  let yo ← packH 0
  let wb ← packH width
  let hb ← packH height
  let db ← packB depth
  let descriptor0 : Nat := if origin_bottom_left then 0x20 else 0x00
  let descriptor : Nat :=
    if depth = 32 then descriptor0 ||| 0x08
    else if depth = 16 then descriptor0 ||| 0x01
    else descriptor0
  let dscb ← packB descriptor
  let palOut : List Nat :=
    if cmap_type = 1 ∧ palette ≠ [] then
      (palette ++ List.replicate (1024 - palette.length) 0).take 1024
    else []
  let dataOut ← (if origin_bottom_left = false ∧ 1 < height then
      (let row_size := width * (depth / 8)
      if row_size = 0 then .error .rangeStepZero
      else .ok (((List.range (pyRangeLen image_data.length row_size)).map
        (fun k => pySlice image_data (k * row_size) (k * row_size + row_size))).reverse.flatten))
    else .ok image_data : Except Err (List Nat))
  pure ([0] ++ b1 ++ b2 ++ cmapSpec ++ xo ++ yo ++ wb ++ hb ++ db ++ dscb ++ palOut ++ dataOut)

/-! ### Bitwise arithmetic bridge for the 16-bit pixel swap -/

theorem and_mask_shift (p m k : Nat) : p &&& (m <<< k) = ((p >>> k) &&& m) <<< k := by
  apply Nat.eq_of_testBit_eq
  intro j
  simp only [Nat.testBit_and, Nat.testBit_shiftLeft, Nat.testBit_shiftRight]
  by_cases h : k ≤ j
  · simp [h, Nat.add_sub_cancel' h]
  · simp [h]

theorem shift_mask_eq_div_mod (p k n : Nat) : (p >>> k) &&& (2 ^ n - 1) = p / 2 ^ k % 2 ^ n := by
  rw [Nat.and_pow_two_sub_one_eq_mod, Nat.shiftRight_eq_div_pow]

theorem field15 (p : Nat) : (p &&& 0x8000) >>> 15 = p / 32768 % 2 := by
  have h := shift_mask_eq_div_mod p 15 1
  norm_num at h
  have h2 : p &&& 0x8000 = ((p >>> 15) &&& 1) <<< 15 := by
    rw [show (0x8000 : Nat) = 1 <<< 15 from by decide, and_mask_shift]
  rw [h2, Nat.shiftLeft_shiftRight]
  simpa using h

theorem field10 (p : Nat) : (p &&& 0x7C00) >>> 10 = p / 1024 % 32 := by
  have h := shift_mask_eq_div_mod p 10 5
  norm_num at h
  have h2 : p &&& 0x7C00 = ((p >>> 10) &&& 31) <<< 10 := by
    rw [show (0x7C00 : Nat) = 31 <<< 10 from by decide, and_mask_shift]
  rw [h2, Nat.shiftLeft_shiftRight]
  simpa using h

theorem field5 (p : Nat) : (p &&& 0x03E0) >>> 5 = p / 32 % 32 := by
  have h := shift_mask_eq_div_mod p 5 5
  norm_num at h
  have h2 : p &&& 0x03E0 = ((p >>> 5) &&& 31) <<< 5 := by
    rw [show (0x03E0 : Nat) = 31 <<< 5 from by decide, and_mask_shift]
  rw [h2, Nat.shiftLeft_shiftRight]
  simpa using h

theorem field0 (p : Nat) : p &&& 0x001F = p % 32 := by
  have h := Nat.and_pow_two_sub_one_eq_mod p 5
  norm_num at h
  exact h

theorem pack_fields (a b g r : Nat) (hb : b < 32) (hg : g < 32) (hr : r < 32) :
    (a <<< 15) ||| (b <<< 10) ||| (g <<< 5) ||| r = a * 32768 + b * 1024 + g * 32 + r := by
  rw [Nat.or_assoc, Nat.or_assoc]
  rw [Nat.shiftLeft_eq, Nat.shiftLeft_eq, Nat.shiftLeft_eq]
  have h1 : g * 2 ^ 5 ||| r = g * 2 ^ 5 + r := by
    rw [Nat.mul_comm, ← Nat.mul_add_lt_is_or hr, Nat.mul_comm]
  have h2 : b * 2 ^ 10 ||| (g * 2 ^ 5 + r) = b * 2 ^ 10 + (g * 2 ^ 5 + r) := by
    rw [Nat.mul_comm, ← Nat.mul_add_lt_is_or (by omega : g * 2 ^ 5 + r < 2 ^ 10), Nat.mul_comm]
  have h3 : a * 2 ^ 15 ||| (b * 2 ^ 10 + (g * 2 ^ 5 + r))
      = a * 2 ^ 15 + (b * 2 ^ 10 + (g * 2 ^ 5 + r)) := by
    rw [Nat.mul_comm, ← Nat.mul_add_lt_is_or (by omega : b * 2 ^ 10 + (g * 2 ^ 5 + r) < 2 ^ 15),
      Nat.mul_comm]
  rw [h1, h2, h3]
  ring

theorem swapPixel16_eq (p : Nat) :
    swapPixel16 p
      = (p / 32768 % 2) * 32768 + (p % 32) * 1024 + (p / 32 % 32) * 32 + p / 1024 % 32 := by
  unfold swapPixel16
  rw [field15, field10, field5, field0]
  exact pack_fields _ _ _ _ (by omega) (by omega) (by omega)

theorem swapPixel16_lt (p : Nat) : swapPixel16 p < 65536 := by
  rw [swapPixel16_eq]
  have h1 : p / 32768 % 2 < 2 := Nat.mod_lt _ (by omega)
  have h2 : p % 32 < 32 := Nat.mod_lt _ (by omega)
  have h3 : p / 32 % 32 < 32 := Nat.mod_lt _ (by omega)
  have h4 : p / 1024 % 32 < 32 := Nat.mod_lt _ (by omega)
  omega

theorem swapPixel16_of_fields (a b g r : Nat) (ha : a < 2) (hb : b < 32) (hg : g < 32)
    (hr : r < 32) :
    swapPixel16 (a * 32768 + r * 1024 + g * 32 + b) = a * 32768 + b * 1024 + g * 32 + r := by
  rw [swapPixel16_eq]
  have h1 : (a * 32768 + r * 1024 + g * 32 + b) / 32768 % 2 = a := by omega
  have h2 : (a * 32768 + r * 1024 + g * 32 + b) % 32 = b := by omega
  have h3 : (a * 32768 + r * 1024 + g * 32 + b) / 32 % 32 = g := by omega
  have h4 : (a * 32768 + r * 1024 + g * 32 + b) / 1024 % 32 = r := by omega
  rw [h1, h2, h3, h4]

theorem swapPixel16_involutive (p : Nat) (hp : p < 65536) : swapPixel16 (swapPixel16 p) = p := by
  obtain ⟨a, b, g, r, ha, hb, hg, hr, hp⟩ :
      ∃ a b g r, a < 2 ∧ b < 32 ∧ g < 32 ∧ r < 32 ∧ p = a * 32768 + r * 1024 + g * 32 + b := by
    refine ⟨p / 32768, p % 32, p / 32 % 32, p / 1024 % 32, by omega, by omega, by omega, by omega,
      by omega⟩
  subst hp
  rw [swapPixel16_of_fields a b g r ha hb hg hr]
  exact swapPixel16_of_fields a r g b ha hr hg hb

/-! ### Structure of the palette block swizzle -/

theorem pySlice_append (u m v : List Nat) (a b : Nat) (ha : a = u.length)
    (hb : b = u.length + m.length) : pySlice (u ++ (m ++ v)) a b = m := by
  subst ha hb
  unfold pySlice
  rw [List.take_append, List.take_left, List.drop_left]

theorem pySliceAssign_append (u m v repl : List Nat) (a b : Nat) (ha : a = u.length)
    (hb : b = u.length + m.length) :
    pySliceAssign (u ++ (m ++ v)) a b repl = u ++ (repl ++ v) := by
  subst ha hb
  unfold pySliceAssign
  have hlo : min u.length (u ++ (m ++ v)).length = u.length := by
    simp only [List.length_append]; omega
  have hhi : max u.length (min (u.length + m.length) (u ++ (m ++ v)).length)
      = u.length + m.length := by
    simp only [List.length_append]; omega
  rw [hlo, hhi, List.take_left, List.drop_append, List.drop_left, List.append_assoc]

theorem unswizzleStep_eq (q : Nat) (u c0 c1 c2 c3 w ru m0 m1 m2 m3 v : List Nat) (bs : Nat)
    (hbs : bs = u.length) (hru : ru.length = u.length)
    (hc0 : c0.length = q) (hc1 : c1.length = q) (hc2 : c2.length = q) (hc3 : c3.length = q)
    (hm0 : m0.length = q) (hm1 : m1.length = q) (hm2 : m2.length = q) (hm3 : m3.length = q) :
    unswizzleStep (u ++ (c0 ++ (c1 ++ (c2 ++ (c3 ++ w))))) (3 * q) (2 * q) q
      (ru ++ (m0 ++ (m1 ++ (m2 ++ (m3 ++ v))))) bs
      = ru ++ (c0 ++ (c2 ++ (c1 ++ (c3 ++ v)))) := by
  have hp1 : u ++ (c0 ++ (c1 ++ (c2 ++ (c3 ++ w))))
      = (u ++ c0) ++ (c1 ++ (c2 ++ (c3 ++ w))) := by simp [List.append_assoc]
  have hp2 : u ++ (c0 ++ (c1 ++ (c2 ++ (c3 ++ w))))
      = (u ++ c0 ++ c1) ++ (c2 ++ (c3 ++ w)) := by simp [List.append_assoc]
  have hp3 : u ++ (c0 ++ (c1 ++ (c2 ++ (c3 ++ w))))
      = (u ++ c0 ++ c1 ++ c2) ++ (c3 ++ w) := by simp [List.append_assoc]
  have hs0 : pySlice (u ++ (c0 ++ (c1 ++ (c2 ++ (c3 ++ w))))) bs (bs + q) = c0 :=
    pySlice_append u c0 _ _ _ hbs (by omega)
  have hs2 : pySlice (u ++ (c0 ++ (c1 ++ (c2 ++ (c3 ++ w))))) (bs + 2 * q) (bs + 2 * q + q)
      = c2 := by
    rw [hp2]
    have := pySlice_append (u ++ c0 ++ c1) c2 (c3 ++ w) (bs + 2 * q) (bs + 2 * q + q)
      (by simp [List.length_append]; omega) (by simp [List.length_append]; omega)
    simpa [List.append_assoc] using this
  have hs1 : pySlice (u ++ (c0 ++ (c1 ++ (c2 ++ (c3 ++ w))))) (bs + q) (bs + q + q) = c1 := by
    rw [hp1]
    have := pySlice_append (u ++ c0) c1 (c2 ++ (c3 ++ w)) (bs + q) (bs + q + q)
      (by simp [List.length_append]; omega) (by simp [List.length_append]; omega)
    simpa [List.append_assoc] using this
  have hs3 : pySlice (u ++ (c0 ++ (c1 ++ (c2 ++ (c3 ++ w))))) (bs + 3 * q) (bs + 3 * q + q)
      = c3 := by
    rw [hp3]
    have := pySlice_append (u ++ c0 ++ c1 ++ c2) c3 w (bs + 3 * q) (bs + 3 * q + q)
      (by simp [List.length_append]; omega) (by simp [List.length_append]; omega)
    simpa [List.append_assoc] using this
  simp only [unswizzleStep]
  rw [hs0, hs2, hs1, hs3]
  rw [pySliceAssign_append ru m0 _ c0 _ _ (by omega) (by omega)]
  have e1 : ru ++ (c0 ++ (m1 ++ (m2 ++ (m3 ++ v))))
      = (ru ++ c0) ++ (m1 ++ (m2 ++ (m3 ++ v))) := by simp [List.append_assoc]
  rw [e1, pySliceAssign_append (ru ++ c0) m1 _ c2 _ _
    (by simp [List.length_append]; omega) (by simp [List.length_append]; omega)]
  have e2 : (ru ++ c0) ++ (c2 ++ (m2 ++ (m3 ++ v)))
      = (ru ++ c0 ++ c2) ++ (m2 ++ (m3 ++ v)) := by simp [List.append_assoc]
  rw [e2, pySliceAssign_append (ru ++ c0 ++ c2) m2 _ c1 _ _
    (by simp [List.length_append]; omega) (by simp [List.length_append]; omega)]
  have e3 : (ru ++ c0 ++ c2) ++ (c1 ++ (m3 ++ v))
      = (ru ++ c0 ++ c2 ++ c1) ++ (m3 ++ v) := by simp [List.append_assoc]
  rw [e3, pySliceAssign_append (ru ++ c0 ++ c2 ++ c1) m3 _ c3 _ _
    (by simp [List.length_append]; omega) (by simp [List.length_append]; omega)]
  simp [List.append_assoc]

theorem pySlice_eq_take_drop (l : List Nat) (a b : Nat) :
    pySlice l a b = (l.drop a).take (b - a) := by
  unfold pySlice
  rw [List.drop_take]

theorem swapQuarters_take_drop (q : Nat) (X : List Nat) :
    swapQuarters q (X.take (4 * q))
      = X.take q ++ ((X.drop (2 * q)).take q ++ ((X.drop q).take q ++ (X.drop (3 * q)).take q)) := by
  unfold swapQuarters
  rw [pySlice_eq_take_drop, pySlice_eq_take_drop]
  simp only [List.drop_take, List.take_take]
  rw [show q ⊓ 4 * q = q from by omega,
    show (3 * q - 2 * q) ⊓ (4 * q - 2 * q) = q from by omega,
    show (2 * q - q) ⊓ (4 * q - q) = q from by omega,
    show 4 * q - 3 * q = q from by omega]
  simp [List.append_assoc]

theorem swapQuarters_take_length (q : Nat) (X : List Nat) (hX : 4 * q ≤ X.length) :
    (swapQuarters q (X.take (4 * q))).length = 4 * q := by
  rw [swapQuarters_take_drop]
  simp only [List.length_append, List.length_take, List.length_drop]
  omega

theorem fold_blocks (q : Nat) (hq : 0 < q) (p : List Nat) (hp : p.length = 32 * q) :
    ∀ (n j : Nat), j + n = 8 → ∀ (ru : List Nat), ru.length = 4 * q * j →
    (List.range' j n).foldl
        (fun result k => unswizzleStep p (3 * q) (2 * q) q result (k * (4 * q)))
        (ru ++ List.replicate (4 * q * n) 0)
      = ru ++ swizzleBlocks q p j n := by
  intro n
  induction n with
  | zero =>
    intro j hj ru hru
    simp [swizzleBlocks]
  | succ n ih =>
    intro j hj ru hru
    have hj7 : j ≤ 7 := by omega
    -- quarters of block j of p
    have d0 : p.take (4 * q * j) ++ p.drop (4 * q * j) = p := List.take_append_drop _ _
    have d1 : (p.drop (4 * q * j)).take q ++ p.drop (4 * q * j + q) = p.drop (4 * q * j) :=
      List.drop_take_append_drop p (4 * q * j) q
    have d2 : (p.drop (4 * q * j + q)).take q ++ p.drop (4 * q * j + 2 * q)
        = p.drop (4 * q * j + q) := by
      have h := List.drop_take_append_drop p (4 * q * j + q) q
      rw [show 4 * q * j + q + q = 4 * q * j + 2 * q from by ring] at h
      exact h
    have d3 : (p.drop (4 * q * j + 2 * q)).take q ++ p.drop (4 * q * j + 3 * q)
        = p.drop (4 * q * j + 2 * q) := by
      have h := List.drop_take_append_drop p (4 * q * j + 2 * q) q
      rw [show 4 * q * j + 2 * q + q = 4 * q * j + 3 * q from by ring] at h
      exact h
    have d4 : (p.drop (4 * q * j + 3 * q)).take q ++ p.drop (4 * q * j + 4 * q)
        = p.drop (4 * q * j + 3 * q) := by
      have h := List.drop_take_append_drop p (4 * q * j + 3 * q) q
      rw [show 4 * q * j + 3 * q + q = 4 * q * j + 4 * q from by ring] at h
      exact h
    have hdecomp : p = p.take (4 * q * j)
        ++ ((p.drop (4 * q * j)).take q
        ++ ((p.drop (4 * q * j + q)).take q
        ++ ((p.drop (4 * q * j + 2 * q)).take q
        ++ ((p.drop (4 * q * j + 3 * q)).take q ++ p.drop (4 * q * j + 4 * q))))) := by
      rw [d4, d3, d2, d1, d0]
    -- length facts
    have hkey : 4 * q * j + 4 * q ≤ 32 * q := by
      have h8 : j + 1 ≤ 8 := by omega
      calc 4 * q * j + 4 * q = 4 * q * (j + 1) := by ring
        _ ≤ 4 * q * 8 := Nat.mul_le_mul_left _ h8
        _ = 32 * q := by ring
    have hu : (p.take (4 * q * j)).length = 4 * q * j := by
      simp only [List.length_take]; omega
    have hc0 : ((p.drop (4 * q * j)).take q).length = q := by
      simp only [List.length_take, List.length_drop]; omega
    have hc1 : ((p.drop (4 * q * j + q)).take q).length = q := by
      simp only [List.length_take, List.length_drop]; omega
    have hc2 : ((p.drop (4 * q * j + 2 * q)).take q).length = q := by
      simp only [List.length_take, List.length_drop]; omega
    have hc3 : ((p.drop (4 * q * j + 3 * q)).take q).length = q := by
      simp only [List.length_take, List.length_drop]; omega
    -- the replicate block, split into quarters
    have hrep : List.replicate (4 * q * (n + 1)) (0 : Nat)
        = List.replicate q 0 ++ (List.replicate q 0 ++ (List.replicate q 0
          ++ (List.replicate q 0 ++ List.replicate (4 * q * n) 0))) := by
      rw [← List.replicate_add, ← List.replicate_add, ← List.replicate_add, ← List.replicate_add]
      congr 1
      ring
    -- one application of the step
    have hstep := unswizzleStep_eq q (p.take (4 * q * j))
      ((p.drop (4 * q * j)).take q) ((p.drop (4 * q * j + q)).take q)
      ((p.drop (4 * q * j + 2 * q)).take q) ((p.drop (4 * q * j + 3 * q)).take q)
      (p.drop (4 * q * j + 4 * q))
      ru (List.replicate q 0) (List.replicate q 0) (List.replicate q 0) (List.replicate q 0)
      (List.replicate (4 * q * n) 0) (j * (4 * q))
      (by rw [hu]; ring) (by rw [hu]; exact hru) hc0 hc1 hc2 hc3
      (by simp) (by simp) (by simp) (by simp)
    rw [← hdecomp] at hstep
    -- the spec side of block j
    have hsw : swapQuarters q (pySlice p (4 * q * j) (4 * q * j + 4 * q))
        = (p.drop (4 * q * j)).take q
          ++ ((p.drop (4 * q * j + 2 * q)).take q
          ++ ((p.drop (4 * q * j + q)).take q ++ (p.drop (4 * q * j + 3 * q)).take q)) := by
      rw [pySlice_eq_take_drop, show 4 * q * j + 4 * q - 4 * q * j = 4 * q from by omega]
      rw [swapQuarters_take_drop]
      rw [List.drop_drop, List.drop_drop, List.drop_drop]
    have hswlen : (swapQuarters q (pySlice p (4 * q * j) (4 * q * j + 4 * q))).length = 4 * q := by
      rw [hsw]
      simp only [List.length_append, List.length_take, List.length_drop]
      omega
    -- unfold one step of the range and the fold
    rw [List.range'_succ, List.foldl_cons, hrep]
    rw [show ru ++ (List.replicate q 0 ++ (List.replicate q 0 ++ (List.replicate q 0
      ++ (List.replicate q 0 ++ List.replicate (4 * q * n) 0)))) = ru ++ (List.replicate q 0
      ++ (List.replicate q 0 ++ (List.replicate q 0
      ++ (List.replicate q 0 ++ List.replicate (4 * q * n) 0)))) from rfl]
    rw [hstep]
    -- regroup and apply the induction hypothesis
    have hregroup : ru ++ ((p.drop (4 * q * j)).take q
        ++ ((p.drop (4 * q * j + 2 * q)).take q
        ++ ((p.drop (4 * q * j + q)).take q
        ++ ((p.drop (4 * q * j + 3 * q)).take q ++ List.replicate (4 * q * n) 0))))
        = (ru ++ swapQuarters q (pySlice p (4 * q * j) (4 * q * j + 4 * q)))
          ++ List.replicate (4 * q * n) 0 := by
      rw [hsw]
      simp [List.append_assoc]
    rw [hregroup]
    have hrulen : (ru ++ swapQuarters q (pySlice p (4 * q * j) (4 * q * j + 4 * q))).length
        = 4 * q * (j + 1) := by
      simp only [List.length_append, hru, hswlen]
      ring
    have := ih (j + 1) (by omega) _ hrulen
    rw [this]
    -- reassemble the spec
    have hspec : swizzleBlocks q p j (n + 1)
        = swapQuarters q (pySlice p (4 * q * j) (4 * q * j + 4 * q)) ++ swizzleBlocks q p (j + 1) n := by
      unfold swizzleBlocks
      rw [List.range'_succ, List.map_cons, List.flatten_cons]
    rw [hspec]
    simp [List.append_assoc]

theorem take_add_split (l : List Nat) (a b : Nat) :
    l.take (a + b) = l.take a ++ (l.drop a).take b := by
  conv_lhs => rw [← List.take_append_drop a (l.take (a + b))]
  rw [List.take_take, Nat.min_eq_left (by omega), List.drop_take,
    show a + b - a = b from by omega]

theorem swapQuarters_involutive (q : Nat) (b : List Nat) (hb : b.length = 4 * q) :
    swapQuarters q (swapQuarters q b) = b := by
  have hbt : b.take (4 * q) = b := List.take_of_length_le (by omega)
  have h1 : swapQuarters q b
      = b.take q ++ ((b.drop (2 * q)).take q ++ ((b.drop q).take q ++ (b.drop (3 * q)).take q)) := by
    conv_lhs => rw [← hbt]
    rw [swapQuarters_take_drop]
  have hc0 : (b.take q).length = q := by simp only [List.length_take]; omega
  have hc1 : ((b.drop q).take q).length = q := by
    simp only [List.length_take, List.length_drop]; omega
  have hc2 : ((b.drop (2 * q)).take q).length = q := by
    simp only [List.length_take, List.length_drop]; omega
  have hc3 : ((b.drop (3 * q)).take q).length = q := by
    simp only [List.length_take, List.length_drop]; omega
  have hY : (swapQuarters q b).length = 4 * q := by
    rw [h1]; simp only [List.length_append, hc0, hc1, hc2, hc3]; omega
  have hYt : (swapQuarters q b).take (4 * q) = swapQuarters q b :=
    List.take_of_length_le (by omega)
  have h2 : swapQuarters q (swapQuarters q b)
      = (swapQuarters q b).take q ++ (((swapQuarters q b).drop (2 * q)).take q
        ++ (((swapQuarters q b).drop q).take q ++ ((swapQuarters q b).drop (3 * q)).take q)) := by
    conv_lhs => rw [← hYt]
    rw [swapQuarters_take_drop]
  rw [h2]
  -- compute the four pieces of the second application
  have e0 : (swapQuarters q b).take q = b.take q := by
    rw [h1, List.take_left' hc0]
  have e1 : ((swapQuarters q b).drop q).take q = (b.drop (2 * q)).take q := by
    rw [h1, List.drop_left' hc0, List.take_left' hc2]
  have e2 : ((swapQuarters q b).drop (2 * q)).take q = (b.drop q).take q := by
    have hsh : swapQuarters q b
        = (b.take q ++ (b.drop (2 * q)).take q) ++ ((b.drop q).take q ++ (b.drop (3 * q)).take q) := by
      rw [h1]; simp [List.append_assoc]
    rw [hsh, List.drop_left' (by simp only [List.length_append, hc0, hc2]; omega),
      List.take_left' hc1]
  have e3 : ((swapQuarters q b).drop (3 * q)).take q = (b.drop (3 * q)).take q := by
    have hsh : swapQuarters q b
        = (b.take q ++ ((b.drop (2 * q)).take q ++ (b.drop q).take q)) ++ (b.drop (3 * q)).take q := by
      rw [h1]; simp [List.append_assoc]
    rw [hsh, List.drop_left' (by simp only [List.length_append, hc0, hc1, hc2]; omega),
      List.take_of_length_le (by omega)]
  rw [e0, e1, e2, e3]
  -- reassemble b from its quarters
  have d1 : b.take q ++ b.drop q = b := List.take_append_drop _ _
  have d2 : (b.drop q).take q ++ b.drop (2 * q) = b.drop q := by
    have h := List.drop_take_append_drop b q q
    rw [show q + q = 2 * q from by omega] at h
    exact h
  have d3 : (b.drop (2 * q)).take q ++ b.drop (3 * q) = b.drop (2 * q) := by
    have h := List.drop_take_append_drop b (2 * q) q
    rw [show 2 * q + q = 3 * q from by omega] at h
    exact h
  have d4 : (b.drop (3 * q)).take q = b.drop (3 * q) :=
    List.take_of_length_le (by simp only [List.length_drop]; omega)
  rw [d4, d3, d2, d1]

theorem paletteSwizzleSpec_eq_blocks (q : Nat) (p : List Nat) :
    paletteSwizzleSpec q p = swizzleBlocks q p 0 8 := by
  unfold paletteSwizzleSpec swizzleBlocks
  rw [List.range_eq_range']

theorem unswizzle_eq_spec (p : List Nat) (q : Nat) (hq : 0 < q) (hp : p.length = 32 * q) :
    unswizzle_8bit_palette p = .ok (paletteSwizzleSpec q p) := by
  simp only [unswizzle_8bit_palette]
  rw [hp]
  rw [show 32 * q / 8 = 4 * q from by omega]
  rw [show 4 * q / 4 = q from by omega]
  rw [show 4 * q - 0 * q = 4 * q from by omega, show 4 * q - 1 * q = 3 * q from by omega,
    show 4 * q - 2 * q = 2 * q from by omega, show 4 * q - 3 * q = q from by omega]
  rw [if_neg (by omega : ¬ 4 * q = 0)]
  rw [show pyRangeLen (32 * q) (4 * q) = 8 from
    Nat.div_eq_of_lt_le (by omega) (by omega)]
  rw [List.range_eq_range']
  have hfold := fold_blocks q hq p hp 8 0 (by omega) [] (by simp)
  rw [show 4 * q * 8 = 32 * q from by ring] at hfold
  simp only [List.nil_append] at hfold
  rw [hfold, paletteSwizzleSpec_eq_blocks]

theorem flatten_drop_blocks (q : Nat) :
    ∀ (j : Nat) (Bs : List (List Nat)), (∀ b ∈ Bs, b.length = 4 * q) →
      Bs.flatten.drop (4 * q * j) = (Bs.drop j).flatten := by
  intro j
  induction j with
  | zero => intro Bs _; simp
  | succ j ih =>
    intro Bs hB
    cases Bs with
    | nil => simp
    | cons b Bs =>
      have hb : b.length = 4 * q := hB b (by simp)
      rw [List.flatten_cons, show 4 * q * (j + 1) = b.length + 4 * q * j from by rw [hb]; ring,
        List.drop_append, ih Bs (fun x hx => hB x (by simp [hx])), List.drop_succ_cons]

theorem slice_flatten_getD (q : Nat) (Bs : List (List Nat)) (hB : ∀ b ∈ Bs, b.length = 4 * q)
    (k : Nat) (hk : k < Bs.length) :
    pySlice Bs.flatten (4 * q * k) (4 * q * k + 4 * q) = Bs.getD k [] := by
  rw [pySlice_eq_take_drop, show 4 * q * k + 4 * q - 4 * q * k = 4 * q from by omega]
  rw [flatten_drop_blocks q k Bs hB]
  rw [List.drop_eq_getElem_cons hk, List.flatten_cons]
  have hmem : Bs[k] ∈ Bs := List.getElem_mem hk
  rw [List.take_left' (hB _ hmem)]
  rw [List.getD_eq_getElem?_getD, List.getElem?_eq_getElem hk]
  rfl

theorem paletteSwizzleSpec_block_length (q : Nat) (p : List Nat) (hp : p.length = 32 * q)
    (k : Nat) (hk : k < 8) :
    (swapQuarters q (pySlice p (4 * q * k) (4 * q * k + 4 * q))).length = 4 * q := by
  have hkey : 4 * q * k + 4 * q ≤ 32 * q := by
    have h8 : k + 1 ≤ 8 := by omega
    calc 4 * q * k + 4 * q = 4 * q * (k + 1) := by ring
      _ ≤ 4 * q * 8 := Nat.mul_le_mul_left _ h8
      _ = 32 * q := by ring
  rw [pySlice_eq_take_drop, show 4 * q * k + 4 * q - 4 * q * k = 4 * q from by omega]
  exact swapQuarters_take_length q _ (by simp only [List.length_drop]; omega)

theorem paletteSwizzleSpec_length (q : Nat) (p : List Nat) (hp : p.length = 32 * q) :
    (paletteSwizzleSpec q p).length = 32 * q := by
  unfold paletteSwizzleSpec
  rw [List.length_flatten, List.map_map]
  have hcg : List.map ((fun b => b.length) ∘
      (fun k => swapQuarters q (pySlice p (4 * q * k) (4 * q * k + 4 * q)))) (List.range 8)
      = List.map (fun _ => 4 * q) (List.range 8) := by
    apply List.map_congr_left
    intro k hk
    have : k < 8 := by simpa using hk
    exact paletteSwizzleSpec_block_length q p hp k this
  rw [hcg]
  simp [List.range_succ]
  ring

theorem flatten_slices (q : Nat) (p : List Nat) :
    ∀ (n j : Nat), 4 * q * (j + n) ≤ p.length →
      ((List.range' j n).map (fun k => pySlice p (4 * q * k) (4 * q * k + 4 * q))).flatten
        = (p.drop (4 * q * j)).take (4 * q * n) := by
  intro n
  induction n with
  | zero => intro j _; simp
  | succ n ih =>
    intro j hle
    rw [List.range'_succ, List.map_cons, List.flatten_cons]
    rw [ih (j + 1) (by
      have : 4 * q * (j + 1 + n) ≤ 4 * q * (j + (n + 1)) := by
        apply Nat.mul_le_mul_left
        omega
      omega)]
    rw [pySlice_eq_take_drop, show 4 * q * j + 4 * q - 4 * q * j = 4 * q from by omega]
    rw [show 4 * q * (n + 1) = 4 * q + 4 * q * n from by ring, take_add_split]
    rw [List.drop_drop, show 4 * q * j + 4 * q = 4 * q * (j + 1) from by ring]

theorem paletteSwizzleSpec_involutive (q : Nat) (p : List Nat)
    (hp : p.length = 32 * q) :
    paletteSwizzleSpec q (paletteSwizzleSpec q p) = p := by
  conv_lhs => rw [paletteSwizzleSpec]
  have hB : ∀ b ∈ (List.range 8).map
      (fun k => swapQuarters q (pySlice p (4 * q * k) (4 * q * k + 4 * q))), b.length = 4 * q := by
    intro b hb
    rw [List.mem_map] at hb
    obtain ⟨k, hk, rfl⟩ := hb
    exact paletteSwizzleSpec_block_length q p hp k (by simpa using hk)
  have hcg : List.map
      (fun k => swapQuarters q (pySlice (paletteSwizzleSpec q p) (4 * q * k) (4 * q * k + 4 * q)))
      (List.range 8)
      = List.map (fun k => pySlice p (4 * q * k) (4 * q * k + 4 * q)) (List.range 8) := by
    apply List.map_congr_left
    intro k hk
    have hk8 : k < 8 := by simpa using hk
    have hslice : pySlice (paletteSwizzleSpec q p) (4 * q * k) (4 * q * k + 4 * q)
        = swapQuarters q (pySlice p (4 * q * k) (4 * q * k + 4 * q)) := by
      conv_lhs => rw [paletteSwizzleSpec]
      rw [slice_flatten_getD q _ hB k (by simpa using hk8)]
      rw [List.getD_eq_getElem?_getD, List.getElem?_eq_getElem (by simpa using hk8)]
      simp
    rw [hslice]
    apply swapQuarters_involutive
    have hkey : 4 * q * k + 4 * q ≤ 32 * q := by
      have h8 : k + 1 ≤ 8 := by omega
      calc 4 * q * k + 4 * q = 4 * q * (k + 1) := by ring
        _ ≤ 4 * q * 8 := Nat.mul_le_mul_left _ h8
        _ = 32 * q := by ring
    rw [pySlice_eq_take_drop, show 4 * q * k + 4 * q - 4 * q * k = 4 * q from by omega]
    simp only [List.length_take, List.length_drop]
    omega
  rw [hcg, List.range_eq_range', flatten_slices q p 8 0 (by omega)]
  simp only [Nat.mul_zero, List.drop_zero]
  rw [show 4 * q * 8 = 32 * q from by ring, ← hp, List.take_length]

theorem unswizzle_involution (p : List Nat) (q : Nat) (hq : 0 < q) (hp : p.length = 32 * q) :
    (unswizzle_8bit_palette p).bind unswizzle_8bit_palette = .ok p := by
  rw [unswizzle_eq_spec p q hq hp]
  show unswizzle_8bit_palette (paletteSwizzleSpec q p) = .ok p
  rw [unswizzle_eq_spec _ q hq (paletteSwizzleSpec_length q p hp),
    paletteSwizzleSpec_involutive q p hp]

/-! ### Structure of the channel-order swaps -/

theorem swap32_props (data : List Nat) (h : data.length % 4 = 0) :
    ∃ r, swap32 data = .ok r ∧ r.length = data.length ∧ swap32 r = .ok data
      ∧ (∀ x ∈ r, x ∈ data) := by
  induction data using swap32.induct with
  | case1 => exact ⟨[], rfl, rfl, rfl, by simp⟩
  | case2 a => simp at h
  | case3 a b => simp at h
  | case4 a b c => simp at h
  | case5 a b c d rest ih =>
    simp only [List.length_cons] at h
    obtain ⟨r, hr, hlen, hinv, hmem⟩ := ih (by omega)
    refine ⟨c :: b :: a :: d :: r, ?_, ?_, ?_, ?_⟩
    · simp [swap32, hr, Except.map]
    · simp [hlen]
    · simp [swap32, hinv, Except.map]
    · intro x hx
      simp only [List.mem_cons] at hx ⊢
      rcases hx with rfl | rfl | rfl | rfl | hx
      · tauto
      · tauto
      · tauto
      · tauto
      · exact Or.inr (Or.inr (Or.inr (Or.inr (hmem x hx))))

theorem getD_zero_oob (l : List Nat) (n : Nat) (h : l.length ≤ n) : l.getD n 0 = 0 := by
  rw [List.getD_eq_getElem?_getD, List.getElem?_eq_none h]
  rfl

theorem getD_cons4 (w x y z : Nat) (l : List Nat) (n : Nat) :
    (w :: x :: y :: z :: l).getD (n + 4) 0 = l.getD n 0 := by
  rw [show n + 4 = (((n + 1) + 1) + 1) + 1 from by ring]
  simp only [List.getD_cons_succ]

theorem swap32_getD (data : List Nat) :
    ∀ r, swap32 data = .ok r → ∀ i,
      r.getD (4 * i) 0 = data.getD (4 * i + 2) 0
      ∧ r.getD (4 * i + 1) 0 = data.getD (4 * i + 1) 0
      ∧ r.getD (4 * i + 2) 0 = data.getD (4 * i) 0
      ∧ r.getD (4 * i + 3) 0 = data.getD (4 * i + 3) 0 := by
  induction data using swap32.induct with
  | case1 =>
    intro r hr i
    cases hr
    simp
  | case2 a => intro r hr; cases hr
  | case3 a b => intro r hr; cases hr
  | case4 a b c =>
    intro r hr i
    cases hr
    match i with
    | 0 => simp [List.getD]
    | i + 1 =>
      refine ⟨?_, ?_, ?_, ?_⟩ <;>
        rw [getD_zero_oob _ _ (by simp only [List.length_cons, List.length_nil]; omega),
          getD_zero_oob _ _ (by simp only [List.length_cons, List.length_nil]; omega)]
  | case5 a b c d rest ih =>
    intro r hr i
    simp only [swap32] at hr
    cases hswap : swap32 rest with
    | error e => rw [hswap] at hr; cases hr
    | ok rt =>
      rw [hswap] at hr
      simp only [Except.map] at hr
      cases hr
      match i with
      | 0 => simp [List.getD]
      | i + 1 =>
        have hih := ih rt hswap i
        refine ⟨?_, ?_, ?_, ?_⟩
        · rw [show 4 * (i + 1) = 4 * i + 4 from by ring,
            show 4 * i + 4 + 2 = 4 * i + 2 + 4 from by omega, getD_cons4, getD_cons4]
          exact hih.1
        · rw [show 4 * (i + 1) + 1 = 4 * i + 1 + 4 from by ring, getD_cons4, getD_cons4]
          exact hih.2.1
        · rw [show 4 * (i + 1) + 2 = 4 * i + 2 + 4 from by ring,
            show 4 * (i + 1) = 4 * i + 4 from by ring, getD_cons4, getD_cons4]
          exact hih.2.2.1
        · rw [show 4 * (i + 1) + 3 = 4 * i + 3 + 4 from by ring, getD_cons4, getD_cons4]
          exact hih.2.2.2

theorem swap16_props (data : List Nat) (h : data.length % 2 = 0) (h256 : ∀ x ∈ data, x < 256) :
    ∃ r, swap16 data = .ok r ∧ r.length = data.length ∧ (∀ x ∈ r, x < 256)
      ∧ swap16 r = .ok data := by
  induction data using swap16.induct with
  | case1 => exact ⟨[], rfl, rfl, by simp, rfl⟩
  | case2 a => simp at h
  | case3 lo hi rest np hnp0 ih =>
    simp only [List.length_cons] at h
    have hlo : lo < 256 := h256 lo (by simp)
    have hhi : hi < 256 := h256 hi (by simp)
    obtain ⟨r, hr, hlen, hb, hinv⟩ := ih (by omega) (fun x hx => h256 x (by simp [hx]))
    have hv : lo + 256 * hi < 65536 := by omega
    have hnp := swapPixel16_lt (lo + 256 * hi)
    refine ⟨swapPixel16 (lo + 256 * hi) % 256 :: swapPixel16 (lo + 256 * hi) / 256 :: r,
      ?_, ?_, ?_, ?_⟩
    · simp only [swap16, if_pos hnp, hr, Except.map]
    · simp [hlen]
    · intro x hx
      simp only [List.mem_cons] at hx
      rcases hx with rfl | rfl | hx
      · omega
      · omega
      · exact hb x hx
    · simp only [swap16]
      have hpix : swapPixel16 (lo + 256 * hi) % 256
          + 256 * (swapPixel16 (lo + 256 * hi) / 256) = swapPixel16 (lo + 256 * hi) := by
        omega
      rw [hpix, swapPixel16_involutive _ hv, if_pos hv, hinv]
      simp only [Except.map]
      rw [show (lo + 256 * hi) % 256 = lo from by omega,
        show (lo + 256 * hi) / 256 = hi from by omega]
  | case4 lo hi rest np hnp0 =>
    exact absurd (swapPixel16_lt (lo + 256 * hi)) hnp0

theorem swap16_pixel (data : List Nat) :
    ∀ r, swap16 data = .ok r → ∀ i,
      r.getD (2 * i) 0 + 256 * r.getD (2 * i + 1) 0
        = swapPixel16 (data.getD (2 * i) 0 + 256 * data.getD (2 * i + 1) 0) := by
  induction data using swap16.induct with
  | case1 =>
    intro r hr i
    cases hr
    simp only [List.getD_eq_getElem?_getD, List.getElem?_nil, Option.getD_none]
    decide
  | case2 a => intro r hr; cases hr
  | case3 lo hi rest np hnp ih =>
    intro r hr i
    simp only [swap16] at hr
    rw [if_pos hnp] at hr
    cases hswap : swap16 rest with
    | error e => rw [hswap] at hr; cases hr
    | ok rt =>
      rw [hswap] at hr
      simp only [Except.map] at hr
      cases hr
      match i with
      | 0 =>
        simp only [Nat.mul_zero, List.getD_cons_zero, Nat.zero_add, List.getD_cons_succ]
        omega
      | i + 1 =>
        have hih := ih rt hswap i
        rw [show 2 * (i + 1) = 2 * i + 1 + 1 from by ring]
        simp only [List.getD_cons_succ]
        exact hih
  | case4 lo hi rest np hnp =>
    exact absurd (swapPixel16_lt (lo + 256 * hi)) hnp

/-! ### Membership and error-shape facts -/

theorem pySlice_mem (l : List Nat) (a b x : Nat) (h : x ∈ pySlice l a b) : x ∈ l := by
  unfold pySlice at h
  exact List.mem_of_mem_take (List.mem_of_mem_drop h)

theorem swapQuarters_mem (q : Nat) (b : List Nat) (x : Nat) (h : x ∈ swapQuarters q b) :
    x ∈ b := by
  unfold swapQuarters at h
  simp only [List.mem_append] at h
  rcases h with ((h | h) | h) | h
  · exact List.mem_of_mem_take h
  · exact pySlice_mem _ _ _ _ h
  · exact pySlice_mem _ _ _ _ h
  · exact List.mem_of_mem_drop h

theorem paletteSwizzleSpec_mem (q : Nat) (p : List Nat) (x : Nat)
    (h : x ∈ paletteSwizzleSpec q p) : x ∈ p := by
  unfold paletteSwizzleSpec at h
  rw [List.mem_flatten] at h
  obtain ⟨b, hb, hx⟩ := h
  rw [List.mem_map] at hb
  obtain ⟨k, _, rfl⟩ := hb
  exact pySlice_mem _ _ _ _ (swapQuarters_mem _ _ _ hx)

theorem swap32_error_shape (data : List Nat) :
    ∀ e, swap32 data = .error e → e = Err.indexError := by
  induction data using swap32.induct with
  | case1 => intro e he; cases he
  | case2 a => intro e he; cases he; rfl
  | case3 a b => intro e he; cases he; rfl
  | case4 a b c => intro e he; cases he
  | case5 a b c d rest ih =>
    intro e he
    simp only [swap32] at he
    cases hs : swap32 rest with
    | error e2 => rw [hs] at he; simp only [Except.map] at he; cases he; exact ih _ hs
    | ok rt => rw [hs] at he; simp only [Except.map] at he; cases he

theorem swap16_error_shape (data : List Nat) :
    ∀ e, swap16 data = .error e → e = Err.structError := by
  induction data using swap16.induct with
  | case1 => intro e he; cases he
  | case2 a => intro e he; cases he; rfl
  | case3 lo hi rest np hnp ih =>
    intro e he
    simp only [swap16] at he
    rw [if_pos hnp] at he
    cases hs : swap16 rest with
    | error e2 => rw [hs] at he; simp only [Except.map] at he; cases he; exact ih _ hs
    | ok rt => rw [hs] at he; simp only [Except.map] at he; cases he
  | case4 lo hi rest np hnp =>
    exact absurd (swapPixel16_lt (lo + 256 * hi)) hnp

theorem unswizzle_error_shape (p : List Nat) :
    ∀ e, unswizzle_8bit_palette p = .error e → e = Err.rangeStepZero := by
  intro e he
  simp only [unswizzle_8bit_palette] at he
  split at he
  · cases he; rfl
  · cases he

theorem change_pixel_order_error_shape (data : List Nat) (depth : Nat) :
    ∀ e, change_pixel_order data depth = .error e
      → e = Err.indexError ∨ e = Err.structError := by
  intro e he
  unfold change_pixel_order at he
  split at he
  · exact Or.inl (swap32_error_shape data e he)
  · split at he
    · exact Or.inr (swap16_error_shape data e he)
    · cases he

theorem readFrames_not_unsupported (depth palette_depth width height : Nat) :
    ∀ (n : Nat) (stream : List Nat) (pal : Option (List Nat)) (t : Nat),
      readFrames depth palette_depth width height n stream pal
        ≠ .error (.unsupportedFormat t) := by
  intro n
  induction n with
  | zero => intro stream pal t h; cases h
  | succ n ih =>
    intro stream pal t h
    simp only [readFrames] at h
    split at h
    · split at h
      next e heq =>
        cases h
        rcases change_pixel_order_error_shape _ _ _ heq with h2 | h2 <;> cases h2
      next pbytes heq =>
        split at h
        next e heq2 =>
          cases h
          cases unswizzle_error_shape _ _ heq2
        next pal2 heq2 =>
          split at h
          next e heq3 =>
            cases h
            exact ih _ _ _ heq3
          next fs heq3 => cases h
    · split at h
      next e heq =>
        cases h
        rcases change_pixel_order_error_shape _ _ _ heq with h2 | h2 <;> cases h2
      next idata heq =>
        split at h
        next e heq2 =>
          cases h
          exact ih _ _ _ heq2
        next fs heq2 => cases h

/-! ### Round trip of the pixel codec -/

theorem roundtrip_frames (depth pd w h : Nat)
    (hd : depth = 32 ∨ depth = 16 ∨ depth = 8)
    (hpd : depth = 8 → pd = 32 ∨ pd = 16) :
    ∀ (fs : List RF2ImageFileFrame),
      (∀ f ∈ fs,
        f.data.length = w * h * (depth / 8)
        ∧ (∀ x ∈ f.data, x < 256)
        ∧ (depth = 8 → f.palette ≠ none
            ∧ (f.palette.getD []).length = 256 * (pd / 8)
            ∧ ∀ x ∈ f.palette.getD [], x < 256)
        ∧ (depth ≠ 8 → f.palette = none)) →
      ∃ enc, encodeFrames depth pd fs = .ok enc
        ∧ ∀ (pal0 : Option (List Nat)) (rest : List Nat), (depth ≠ 8 → pal0 = none) →
            readFrames depth pd w h fs.length (enc ++ rest) pal0 = .ok fs := by
  intro fs
  induction fs with
  | nil =>
    intro hwf
    exact ⟨[], rfl, fun pal0 rest hpal0 => rfl⟩
  | cons f fs ih =>
    intro hwf
    obtain ⟨hflen, hfb, hfp8, hfpn⟩ := hwf f (by simp)
    obtain ⟨encR, hencR, hreadR⟩ := ih (fun g hg => hwf g (by simp [hg]))
    rcases hd with h32 | h16 | h8
    · -- depth = 32
      subst h32
      obtain ⟨r, hr, hrlen, hrinv, hrmem⟩ := swap32_props f.data (by omega)
      have hcp : change_pixel_order f.data 32 = .ok r := by
        unfold change_pixel_order
        rw [if_pos rfl]
        exact hr
      have hcpinv : change_pixel_order r 32 = .ok f.data := by
        unfold change_pixel_order
        rw [if_pos rfl]
        exact hrinv
      refine ⟨r ++ encR, ?_, ?_⟩
      · simp only [encodeFrames]
        rw [if_neg (by omega : ¬ (32 : Nat) = 8), hcp, hencR]
      · intro pal0 rest hpal0
        have hpalf : pal0 = f.palette := by
          rw [hpal0 (by omega), hfpn (by omega)]
        simp only [List.length_cons, readFrames]
        rw [if_neg (by omega : ¬ (32 : Nat) = 8)]
        have htake : ((r ++ encR) ++ rest).take (w * h * (32 / 8)) = r := by
          rw [List.append_assoc]
          exact List.take_left' (by omega)
        have hdrop : ((r ++ encR) ++ rest).drop (w * h * (32 / 8)) = encR ++ rest := by
          rw [List.append_assoc]
          exact List.drop_left' (by omega)
        rw [htake, hdrop, hcpinv, hreadR pal0 rest (fun _ => hpal0 (by omega)), hpalf]
    · -- depth = 16
      subst h16
      obtain ⟨r, hr, hrlen, hrb, hrinv⟩ := swap16_props f.data (by omega) hfb
      have hcp : change_pixel_order f.data 16 = .ok r := by
        unfold change_pixel_order
        rw [if_neg (by omega : ¬ (16 : Nat) = 32), if_pos rfl]
        exact hr
      have hcpinv : change_pixel_order r 16 = .ok f.data := by
        unfold change_pixel_order
        rw [if_neg (by omega : ¬ (16 : Nat) = 32), if_pos rfl]
        exact hrinv
      refine ⟨r ++ encR, ?_, ?_⟩
      · simp only [encodeFrames]
        rw [if_neg (by omega : ¬ (16 : Nat) = 8), hcp, hencR]
      · intro pal0 rest hpal0
        have hpalf : pal0 = f.palette := by
          rw [hpal0 (by omega), hfpn (by omega)]
        simp only [List.length_cons, readFrames]
        rw [if_neg (by omega : ¬ (16 : Nat) = 8)]
        have htake : ((r ++ encR) ++ rest).take (w * h * (16 / 8)) = r := by
          rw [List.append_assoc]
          exact List.take_left' (by omega)
        have hdrop : ((r ++ encR) ++ rest).drop (w * h * (16 / 8)) = encR ++ rest := by
          rw [List.append_assoc]
          exact List.drop_left' (by omega)
        rw [htake, hdrop, hcpinv, hreadR pal0 rest (fun _ => hpal0 (by omega)), hpalf]
    · -- depth = 8
      subst h8
      obtain ⟨hpne, hplen0, hpb0⟩ := hfp8 rfl
      obtain ⟨pal, hpal⟩ : ∃ p, f.palette = some p := by
        cases hp : f.palette with
        | none => exact absurd hp hpne
        | some p => exact ⟨p, rfl⟩
      rw [hpal] at hplen0 hpb0
      simp only [Option.getD_some] at hplen0 hpb0
      rcases hpd rfl with hpd32 | hpd16
      · -- 32-bit palette
        subst hpd32
        have hplen : pal.length = 32 * 32 := by omega
        have hswspec := unswizzle_eq_spec pal 32 (by omega) hplen
        have hswlen := paletteSwizzleSpec_length 32 pal hplen
        have hswb : ∀ x ∈ paletteSwizzleSpec 32 pal, x < 256 :=
          fun x hx => hpb0 x (paletteSwizzleSpec_mem _ _ _ hx)
        obtain ⟨r, hr, hrlen, hrinv, hrmem⟩ := swap32_props (paletteSwizzleSpec 32 pal) (by omega)
        have hcp : change_pixel_order (paletteSwizzleSpec 32 pal) 32 = .ok r := by
          unfold change_pixel_order
          rw [if_pos rfl]
          exact hr
        have hcpinv : change_pixel_order r 32 = .ok (paletteSwizzleSpec 32 pal) := by
          unfold change_pixel_order
          rw [if_pos rfl]
          exact hrinv
        have hswinv : unswizzle_8bit_palette (paletteSwizzleSpec 32 pal) = .ok pal := by
          rw [unswizzle_eq_spec _ 32 (by omega) (by omega),
            paletteSwizzleSpec_involutive 32 pal hplen]
        refine ⟨r ++ f.data ++ encR, ?_, ?_⟩
        · simp only [encodeFrames, if_true]
          simp only [hpal, hswspec, hcp, hencR]
        · intro pal0 rest hpal0
          simp only [List.length_cons, readFrames, if_true, List.append_assoc]
          have htake : (r ++ (f.data ++ (encR ++ rest))).take (256 * 32 / 8) = r :=
            List.take_left' (by omega)
          have hdrop : (r ++ (f.data ++ (encR ++ rest))).drop (256 * 32 / 8)
              = f.data ++ (encR ++ rest) :=
            List.drop_left' (by omega)
          have htake2 : (f.data ++ (encR ++ rest)).take (w * h) = f.data :=
            List.take_left' (by omega)
          have hdrop2 : (f.data ++ (encR ++ rest)).drop (w * h) = encR ++ rest :=
            List.drop_left' (by omega)
          have hread2 := hreadR (some pal) rest (fun hne => absurd rfl hne)
          simp only [htake, hdrop, hcpinv, hswinv, htake2, hdrop2, hread2]
          rw [← hpal]
      · -- 16-bit palette
        subst hpd16
        have hplen : pal.length = 32 * 16 := by omega
        have hswspec := unswizzle_eq_spec pal 16 (by omega) hplen
        have hswlen := paletteSwizzleSpec_length 16 pal hplen
        have hswb : ∀ x ∈ paletteSwizzleSpec 16 pal, x < 256 :=
          fun x hx => hpb0 x (paletteSwizzleSpec_mem _ _ _ hx)
        obtain ⟨r, hr, hrlen, hrb, hrinv⟩ := swap16_props (paletteSwizzleSpec 16 pal)
          (by omega) hswb
        have hcp : change_pixel_order (paletteSwizzleSpec 16 pal) 16 = .ok r := by
          unfold change_pixel_order
          rw [if_neg (by omega : ¬ (16 : Nat) = 32), if_pos rfl]
          exact hr
        have hcpinv : change_pixel_order r 16 = .ok (paletteSwizzleSpec 16 pal) := by
          unfold change_pixel_order
          rw [if_neg (by omega : ¬ (16 : Nat) = 32), if_pos rfl]
          exact hrinv
        have hswinv : unswizzle_8bit_palette (paletteSwizzleSpec 16 pal) = .ok pal := by
          rw [unswizzle_eq_spec _ 16 (by omega) (by omega),
            paletteSwizzleSpec_involutive 16 pal hplen]
        refine ⟨r ++ f.data ++ encR, ?_, ?_⟩
        · simp only [encodeFrames, if_true]
          simp only [hpal, hswspec, hcp, hencR]
        · intro pal0 rest hpal0
          simp only [List.length_cons, readFrames, if_true, List.append_assoc]
          have htake : (r ++ (f.data ++ (encR ++ rest))).take (256 * 16 / 8) = r :=
            List.take_left' (by omega)
          have hdrop : (r ++ (f.data ++ (encR ++ rest))).drop (256 * 16 / 8)
              = f.data ++ (encR ++ rest) :=
            List.drop_left' (by omega)
          have htake2 : (f.data ++ (encR ++ rest)).take (w * h) = f.data :=
            List.take_left' (by omega)
          have hdrop2 : (f.data ++ (encR ++ rest)).drop (w * h) = encR ++ rest :=
            List.drop_left' (by omega)
          have hread2 := hreadR (some pal) rest (fun hne => absurd rfl hne)
          simp only [htake, hdrop, hcpinv, hswinv, htake2, hdrop2, hread2]
          rw [← hpal]

/-- C1: for every well-formed decoded image of depth 32, 16 or 8 (frames of
exactly `width * height * depth/8` bytes of byte values, and for depth 8 a
256-entry palette of the matching palette depth 32 or 16, with the
palette-depth field 32 on non-palettized images as the decoder produces),
encoding the image to its raw payload and decoding that payload with the
metadata the packer stores reproduces the image exactly. The encoder is
modelled from the spec (see `encodeFrames`); the decoder is the source
`_read_image_data`. -/
theorem codec_roundtrip (img : RF2ImageFile)
    (hd : img.depth = 32 ∨ img.depth = 16 ∨ img.depth = 8)
    (hpd8 : img.depth = 8 → img.palette_depth = 32 ∨ img.palette_depth = 16)
    (hpdo : img.depth ≠ 8 → img.palette_depth = 32)
    (hwf : ∀ f ∈ img.frames,
        f.data.length = img.width * img.height * (img.depth / 8)
        ∧ (∀ x ∈ f.data, x < 256)
        ∧ (img.depth = 8 → f.palette ≠ none
            ∧ (f.palette.getD []).length = 256 * (img.palette_depth / 8)
            ∧ ∀ x ∈ f.palette.getD [], x < 256)
        ∧ (img.depth ≠ 8 → f.palette = none)) :
    encode_then_decode img = .ok img := by
  obtain ⟨name, w, h, depth, pd, frames⟩ := img
  dsimp only at hd hpd8 hpdo hwf
  obtain ⟨enc, henc, hread⟩ := roundtrip_frames depth pd w h hd hpd8 frames hwf
  rcases hd with rfl | rfl | rfl
  · have hpd32 : pd = 32 := hpdo (by omega)
    subst hpd32
    have hr := hread none [] (fun _ => rfl)
    rw [List.append_nil] at hr
    simp only [encode_then_decode, encodeImage, henc]
    rw [show get_image_type 32 = 7 from rfl, show get_subtype 32 32 = 0 from rfl]
    simp only [readImageData]
    rw [if_pos trivial, hr]
    rfl
  · have hpd32 : pd = 32 := hpdo (by omega)
    subst hpd32
    have hr := hread none [] (fun _ => rfl)
    rw [List.append_nil] at hr
    simp only [encode_then_decode, encodeImage, henc]
    rw [show get_image_type 16 = 3 from rfl, show get_subtype 16 32 = 0 from rfl]
    simp only [readImageData]
    rw [if_neg (by decide : ¬ (3 : Nat) = 7), if_neg (by decide : ¬ (3 : Nat) = 4),
      if_pos trivial, hr]
    rfl
  · rcases hpd8 rfl with rfl | rfl
    · have hr := hread none [] (fun hne => absurd rfl hne)
      rw [List.append_nil] at hr
      simp only [encode_then_decode, encodeImage, henc]
      rw [show get_image_type 8 = 4 from rfl, show get_subtype 8 32 = 2 from rfl]
      simp only [readImageData]
      rw [if_neg (by decide : ¬ (4 : Nat) = 7), if_pos trivial]
      rw [show (if (2 : Nat) = 1 then 16 else 32) = 32 from rfl, hr]
      rfl
    · have hr := hread none [] (fun hne => absurd rfl hne)
      rw [List.append_nil] at hr
      simp only [encode_then_decode, encodeImage, henc]
      rw [show get_image_type 8 = 4 from rfl, show get_subtype 8 16 = 1 from rfl]
      simp only [readImageData]
      rw [if_neg (by decide : ¬ (4 : Nat) = 7), if_pos trivial]
      rw [show (if True then (16 : Nat) else 32) = 16 from rfl, hr]
      rfl

theorem map_eq_error {α β : Type} {e : Except Err α} {f : α → β} {x : Err}
    (h : e.map f = .error x) : e = .error x := by
  cases e with
  | ok v => simp only [Except.map] at h; cases h
  | error v =>
    simp only [Except.map] at h
    injection h with h2
    rw [h2]

theorem getD_lt (l : List Nat) (hb : ∀ x ∈ l, x < 256) (j : Nat) : l.getD j 0 < 256 := by
  by_cases hj : j < l.length
  · rw [List.getD_eq_getElem?_getD, List.getElem?_eq_getElem hj]
    exact hb _ (List.getElem_mem hj)
  · rw [getD_zero_oob l j (by omega)]
    omega

theorem swapped_pixel_fields (v : Nat) (hv : v < 65536) :
    ((v / 32768 % 2) * 32768 + (v % 32) * 1024 + (v / 32 % 32) * 32 + v / 1024 % 32) / 32768
        = v / 32768
    ∧ ((v / 32768 % 2) * 32768 + (v % 32) * 1024 + (v / 32 % 32) * 32 + v / 1024 % 32)
        / 1024 % 32 = v % 32
    ∧ ((v / 32768 % 2) * 32768 + (v % 32) * 1024 + (v / 32 % 32) * 32 + v / 1024 % 32)
        / 32 % 32 = v / 32 % 32
    ∧ ((v / 32768 % 2) * 32768 + (v % 32) * 1024 + (v / 32 % 32) * 32 + v / 1024 % 32) % 32
        = v / 1024 % 32 := by
  have h2 : v / 32768 % 2 = v / 32768 := by omega
  rw [h2]
  have hA : v / 32768 < 2 := by omega
  have hB : v % 32 < 32 := by omega
  have hC : v / 32 % 32 < 32 := by omega
  have hD : v / 1024 % 32 < 32 := by omega
  generalize v / 32768 = A at hA ⊢
  generalize v % 32 = B at hB ⊢
  generalize v / 32 % 32 = C at hC ⊢
  generalize hDv : v / 1024 % 32 = D at hD ⊢
  refine ⟨by omega, by omega, by omega, by omega⟩

/-! ### Claim theorems -/

/-- C2 (amended): for every nonempty byte buffer whose length is divisible
by 32, applying the palette block swizzle twice returns the buffer
unchanged. (The original claim also covers the empty buffer, on which the
source raises a ValueError because the loop step is zero; see the
counterexample.) -/
theorem c2_swizzle_involution (p : List Nat) (hne : p ≠ []) (hlen : p.length % 32 = 0) :
    (unswizzle_8bit_palette p).bind unswizzle_8bit_palette = .ok p := by
  have hq : 0 < p.length / 32 := by
    have h0 : p.length ≠ 0 := fun hc => hne (List.eq_nil_of_length_eq_zero hc)
    omega
  exact unswizzle_involution p (p.length / 32) hq (by omega)

theorem c2_swizzle_involution_witness :
    (unswizzle_8bit_palette (List.range 32)).bind unswizzle_8bit_palette
      = .ok (List.range 32) :=
  c2_swizzle_involution (List.range 32) (by decide) (by decide)

/-- C2 counterexample: the empty buffer has length divisible by 32, yet the
swizzle applied twice does not return it — the first application already
raises (zero loop step), so `S(S(b)) == b` fails at `b = []`. -/
theorem c2_empty_buffer_counterexample :
    ([] : List Nat).length % 32 = 0
    ∧ (unswizzle_8bit_palette []).bind unswizzle_8bit_palette = .error .rangeStepZero := by
  decide

/-- C3 (amended): for every nonempty buffer of length `L` divisible by 32,
the palette block swizzle partitions the buffer into 8 macro-blocks of
`L/8` bytes and 4 quarters of `L/32` bytes per macro-block and swaps
quarters 1 and 2 within every macro-block, quarter sizes computed from `L`
(so the same function handles 512- and 1024-byte inputs). The original
claim also covers the empty buffer, on which the source raises; see the
counterexample. -/
theorem c3_swizzle_quarter_swap (p : List Nat) (hne : p ≠ []) (hlen : p.length % 32 = 0) :
    unswizzle_8bit_palette p = .ok (paletteSwizzleSpec (p.length / 32) p) := by
  have hq : 0 < p.length / 32 := by
    have h0 : p.length ≠ 0 := fun hc => hne (List.eq_nil_of_length_eq_zero hc)
    omega
  exact unswizzle_eq_spec p (p.length / 32) hq (by omega)

theorem c3_swizzle_quarter_swap_witness :
    unswizzle_8bit_palette (List.range 64)
      = .ok (paletteSwizzleSpec ((List.range 64).length / 32) (List.range 64)) :=
  c3_swizzle_quarter_swap (List.range 64) (by decide) (by decide)

/-- C3 counterexample: the empty buffer has length divisible by 32, yet the
swizzle does not produce the quarter-swapped buffer — it raises because the
computed loop step is zero. -/
theorem c3_empty_buffer_counterexample :
    ([] : List Nat).length % 32 = 0
    ∧ unswizzle_8bit_palette []
        ≠ .ok (paletteSwizzleSpec (([] : List Nat).length / 32) []) := by
  decide

/-- C4: on byte buffers (elements below 256) of length divisible by 4
(depth 32) or by 2 (depth 16), the channel-order swap applied twice at the
same depth returns the original bytes; a single depth-32 application
exchanges bytes 0 and 2 of every 4-byte pixel leaving bytes 1 and 3 in
place, and a single depth-16 application swaps the 5-bit fields at bits
10-14 and bits 0-4 of each little-endian 16-bit value leaving bit 15 and
bits 5-9 in place. -/
theorem c4_channel_swap_involution (data : List Nat) (h256 : ∀ x ∈ data, x < 256) :
    (data.length % 4 = 0 → change_pixel_order_twice data 32 = .ok data)
    ∧ (data.length % 2 = 0 → change_pixel_order_twice data 16 = .ok data)
    ∧ (∀ r, change_pixel_order data 32 = .ok r → ∀ i,
        r.getD (4 * i) 0 = data.getD (4 * i + 2) 0
        ∧ r.getD (4 * i + 1) 0 = data.getD (4 * i + 1) 0
        ∧ r.getD (4 * i + 2) 0 = data.getD (4 * i) 0
        ∧ r.getD (4 * i + 3) 0 = data.getD (4 * i + 3) 0)
    ∧ (∀ r, change_pixel_order data 16 = .ok r → ∀ i,
        (r.getD (2 * i) 0 + 256 * r.getD (2 * i + 1) 0) / 32768
            = (data.getD (2 * i) 0 + 256 * data.getD (2 * i + 1) 0) / 32768
        ∧ (r.getD (2 * i) 0 + 256 * r.getD (2 * i + 1) 0) / 1024 % 32
            = (data.getD (2 * i) 0 + 256 * data.getD (2 * i + 1) 0) % 32
        ∧ (r.getD (2 * i) 0 + 256 * r.getD (2 * i + 1) 0) / 32 % 32
            = (data.getD (2 * i) 0 + 256 * data.getD (2 * i + 1) 0) / 32 % 32
        ∧ (r.getD (2 * i) 0 + 256 * r.getD (2 * i + 1) 0) % 32
            = (data.getD (2 * i) 0 + 256 * data.getD (2 * i + 1) 0) / 1024 % 32) := by
  refine ⟨?_, ?_, ?_, ?_⟩
  · intro h4
    obtain ⟨r, hr, _, hrinv, _⟩ := swap32_props data h4
    have h1 : change_pixel_order data 32 = .ok r := by
      unfold change_pixel_order
      rw [if_pos rfl]
      exact hr
    have h2 : change_pixel_order r 32 = .ok data := by
      unfold change_pixel_order
      rw [if_pos rfl]
      exact hrinv
    simp only [change_pixel_order_twice, h1, h2]
  · intro h2
    obtain ⟨r, hr, _, _, hrinv⟩ := swap16_props data h2 h256
    have ha : change_pixel_order data 16 = .ok r := by
      unfold change_pixel_order
      rw [if_neg (by decide : ¬ (16 : Nat) = 32), if_pos rfl]
      exact hr
    have hb : change_pixel_order r 16 = .ok data := by
      unfold change_pixel_order
      rw [if_neg (by decide : ¬ (16 : Nat) = 32), if_pos rfl]
      exact hrinv
    simp only [change_pixel_order_twice, ha, hb]
  · intro r hrok i
    have hsw : swap32 data = .ok r := by
      unfold change_pixel_order at hrok
      rw [if_pos rfl] at hrok
      exact hrok
    exact swap32_getD data r hsw i
  · intro r hrok i
    have hsw : swap16 data = .ok r := by
      unfold change_pixel_order at hrok
      rw [if_neg (by decide : ¬ (16 : Nat) = 32), if_pos rfl] at hrok
      exact hrok
    have hp := swap16_pixel data r hsw i
    have hlt1 := getD_lt data h256 (2 * i)
    have hlt2 := getD_lt data h256 (2 * i + 1)
    rw [swapPixel16_eq] at hp
    have hv : data.getD (2 * i) 0 + 256 * data.getD (2 * i + 1) 0 < 65536 := by omega
    have hfields := swapped_pixel_fields _ hv
    refine ⟨?_, ?_, ?_, ?_⟩ <;> rw [hp]
    · exact hfields.1
    · exact hfields.2.1
    · exact hfields.2.2.1
    · exact hfields.2.2.2

theorem c4_channel_swap_involution_witness :
    change_pixel_order_twice [1, 2, 3, 4] 32 = .ok [1, 2, 3, 4]
    ∧ change_pixel_order_twice [1, 2] 16 = .ok [1, 2] :=
  ⟨(c4_channel_swap_involution [1, 2, 3, 4] (by decide)).1 (by decide),
   (c4_channel_swap_involution [1, 2] (by decide)).2.1 (by decide)⟩

theorem codec_roundtrip_witness :
    encode_then_decode ⟨"img", 1, 1, 32, 32, [⟨[1, 2, 3, 4], none⟩]⟩
      = .ok ⟨"img", 1, 1, 32, 32, [⟨[1, 2, 3, 4], none⟩]⟩ :=
  codec_roundtrip ⟨"img", 1, 1, 32, 32, [⟨[1, 2, 3, 4], none⟩]⟩
    (by decide) (by decide) (by decide) (by decide)

/-- C5: the archive writer is inconsistent with the claim and with its own
reader. The header `_write_header` emits is 32 bytes long and the reader
parses a 32-byte header with the entry table at byte 32, but
`_write_entries` seeks to byte 28 (overwriting the last header field) and
assigns offsets starting from `28 + N * 64`, not `32 + N * 64`; moreover
`_write_image_data` starts the payloads at the LAST stored offset instead
of the first. Evaluated here for two entries with 1-byte payloads: the
stored offsets are 156 and 157 where the claim requires 160 and 161, and
the payload bytes are written from 157, overlapping the stored offset 156
of the first entry. -/
theorem c5_write_offsets_bug :
    (writeHeaderBytes 6 2 [1, 1]).length = 32
    ∧ writeEntriesOffsets 2 [1, 1] = [156, 157]
    ∧ entrySeekPos 0 = 28
    ∧ entrySeekPos 0 < 32
    ∧ imageDataStartPos (writeEntriesOffsets 2 [1, 1]) = 157
    ∧ writeEntriesOffsets 2 [1, 1] ≠ [32 + 2 * 64, 32 + 2 * 64 + 1] := by
  decide

/-- C6: decoding an entry whose frame count field is 0 produces an image
with zero frames, not the single still frame the claim (and the format,
which uses 0 for still images as the repo packer writes) requires; with
frame count 1 the same entry decodes to exactly one frame. -/
theorem c6_frame_zero_bug :
    readImageData 1 1 7 0 0 "a" [1, 2, 3, 4]
      = .ok ⟨"a", 1, 1, 32, 32, []⟩
    ∧ readImageData 1 1 7 0 1 "a" [1, 2, 3, 4]
      = .ok ⟨"a", 1, 1, 32, 32, [⟨[3, 2, 1, 4], none⟩]⟩ := by
  decide

/-- C7 (amended): the palette swizzle performs no divisibility-by-32
validation at all: it fails (with the ValueError of a zero Python range
step, not an InvalidSizeError) exactly on inputs shorter than 8 bytes, and
returns a result on every input of length at least 8, whether or not the
length is divisible by 32. -/
theorem c7_no_size_validation (p : List Nat) :
    (p.length < 8 → unswizzle_8bit_palette p = .error .rangeStepZero)
    ∧ (8 ≤ p.length → (unswizzle_8bit_palette p).toOption.isSome = true) := by
  constructor
  · intro hlt
    simp only [unswizzle_8bit_palette]
    rw [if_pos (by omega : p.length / 8 - 0 * (p.length / 8 / 4) = 0)]
  · intro hge
    simp only [unswizzle_8bit_palette]
    rw [if_neg (by omega : ¬ p.length / 8 - 0 * (p.length / 8 / 4) = 0)]
    rfl

theorem c7_no_size_validation_witness :
    unswizzle_8bit_palette [0, 0, 0] = .error .rangeStepZero
    ∧ (unswizzle_8bit_palette (List.range 8)).toOption.isSome = true :=
  ⟨(c7_no_size_validation [0, 0, 0]).1 (by decide),
   (c7_no_size_validation (List.range 8)).2 (by decide)⟩

/-- C7 counterexample: an 8-byte buffer has length not divisible by 32, yet
the swizzle returns a result (here the buffer unchanged) instead of
failing. -/
theorem c7_returns_on_bad_size_counterexample :
    (List.range 8).length % 32 ≠ 0
    ∧ unswizzle_8bit_palette (List.range 8) = .ok (List.range 8) := by
  decide

/-- C8: decoding an archive entry fails with the unsupported-format error
carrying the entry type value exactly when the type is not 3, 4 or 7, and
an unsupported-format error can only ever carry the entry type itself. -/
theorem c8_unsupported_format_iff (w h ty st fn : Nat) (name : String) (stream : List Nat) :
    (readImageData w h ty st fn name stream = .error (.unsupportedFormat ty)
      ↔ (ty ≠ 3 ∧ ty ≠ 4 ∧ ty ≠ 7))
    ∧ ∀ t, readImageData w h ty st fn name stream = .error (.unsupportedFormat t) → t = ty := by
  have hbranch : ∀ t, readImageData w h ty st fn name stream = .error (.unsupportedFormat t)
      → ty ≠ 3 ∧ ty ≠ 4 ∧ ty ≠ 7 ∧ t = ty := by
    intro t hfail
    unfold readImageData at hfail
    by_cases h7 : ty = 7
    · rw [if_pos h7] at hfail
      exact absurd (map_eq_error hfail) (readFrames_not_unsupported _ _ _ _ _ _ _ _)
    · rw [if_neg h7] at hfail
      by_cases h4 : ty = 4
      · rw [if_pos h4] at hfail
        exact absurd (map_eq_error hfail) (readFrames_not_unsupported _ _ _ _ _ _ _ _)
      · rw [if_neg h4] at hfail
        by_cases h3 : ty = 3
        · rw [if_pos h3] at hfail
          exact absurd (map_eq_error hfail) (readFrames_not_unsupported _ _ _ _ _ _ _ _)
        · rw [if_neg h3] at hfail
          simp only [Except.error.injEq, Err.unsupportedFormat.injEq] at hfail
          exact ⟨h3, h4, h7, hfail.symm⟩
  constructor
  · constructor
    · intro hfail
      obtain ⟨h3, h4, h7, _⟩ := hbranch ty hfail
      exact ⟨h3, h4, h7⟩
    · intro h
      obtain ⟨h3, h4, h7⟩ := h
      unfold readImageData
      rw [if_neg h7, if_neg h4, if_neg h3]
  · intro t hfail
    exact (hbranch t hfail).2.2.2

theorem c8_unsupported_format_iff_witness :
    readImageData 2 2 9 0 1 "tex" [] = .error (.unsupportedFormat 9) :=
  (c8_unsupported_format_iff 2 2 9 0 1 "tex" []).1.mpr (by decide)

/-- C9: the raster writer contradicts the claim and its own reader. For
canonical top-down data of height 2 written with the origin flag false, the
rows ARE reversed (stored bottom-to-top) while the emitted descriptor byte
is 0x08 with bit 5 clear — which the reader `from_bytes` (and the claim)
interprets as rows stored top-to-bottom. The emitted stream shown here has
descriptor byte 8 at offset 17 and the two 4-byte rows in reversed order. -/
theorem c9_tga_descriptor_bug :
    tga_write_to_stream 1 2 32 [1, 2, 3, 4, 5, 6, 7, 8] [] 256 32 false
      = .ok [0, 0, 2, 0, 0, 0, 0, 0, 0, 0, 0, 0, 1, 0, 2, 0, 32, 8,
             5, 6, 7, 8, 1, 2, 3, 4]
    ∧ originBottomLeftOfDescriptor 8 = false := by
  decide

/-- C10: for every depth other than 32 and 16 (such as 8 or 24) the
channel-order swap returns its input unchanged and raises no error, so
8-bit index payloads pass through byte-identically. -/
theorem c10_other_depth_identity (data : List Nat) (depth : Nat)
    (h32 : depth ≠ 32) (h16 : depth ≠ 16) :
    change_pixel_order data depth = .ok data := by
  unfold change_pixel_order
  rw [if_neg h32, if_neg h16]

theorem c10_other_depth_identity_witness :
    change_pixel_order [5, 6] 8 = .ok [5, 6]
    ∧ change_pixel_order [1, 2, 3] 24 = .ok [1, 2, 3] :=
  ⟨c10_other_depth_identity [5, 6] 8 (by decide) (by decide),
   c10_other_depth_identity [1, 2, 3] 24 (by decide) (by decide)⟩
